import Mathlib

/-!
Shallow embedding of the data-cleaning core of the ProjektZero-LoL-Model
repository: the `OraclesElixir` cleaning pipeline in `src/oracles_elixir.py`
and the flattening stage of `enrich_dataset` in `src/data_generator.py`.
Python lists become `List`, nullable cells become `Option`, raised exceptions
become `Except PyErr`.
-/

/-- Runtime failures of the embedded Python code. -/
inductive PyErr where
  | invalidArgument
  | indexError
  | flagOutOfBounds
  | parseError
  | attributeError
deriving DecidableEq

/-- Python list indexing for the expression `column[i - gap]` in
`get_opponent`: the subtraction happens in the integers and a negative index
counts from the end of the list; an index below `-len(column)` raises
`IndexError`, modelled as `none`. -/
def pyGetSub (l : List α) (i gap : Nat) : Option α :=
  if gap ≤ i then l[i - gap]?
  else if gap - i ≤ l.length then l[l.length - (gap - i)]? else none

/-- The loop of `OraclesElixir.get_opponent` (src/oracles_elixir.py lines
87-101): `n` counts the remaining iterations, `i` is the running index into
`column` and `flag` is the side counter. Each iteration appends
`column[i + gap]` while `flag < gap`, appends `column[i - gap]` while
`gap <= flag < gap * 2`, and raises `ValueError("Index i - Out Of Bounds")`
otherwise; the counter is incremented and reset to `0` once it reaches
`gap * 2`. -/
def getOpponentAux (column : List α) (gap : Nat) : Nat → Nat → Nat → Except PyErr (List α)
  | 0, _, _ => .ok []
  | n + 1, i, flag =>
    if flag < gap then
      match column[i + gap]? with
      | some v =>
          (getOpponentAux column gap n (i + 1)
            (if gap * 2 ≤ flag + 1 then 0 else flag + 1)).map (fun r => v :: r)
      | none => .error .indexError
    else if flag < gap * 2 then
      match pyGetSub column i gap with
      | some v =>
          (getOpponentAux column gap n (i + 1)
            (if gap * 2 ≤ flag + 1 then 0 else flag + 1)).map (fun r => v :: r)
      | none => .error .indexError
    else
      .error .flagOutOfBounds

/-- `OraclesElixir.get_opponent` (src/oracles_elixir.py lines 54-102): choose
the gap from the entity (`5` for `"player"`, `1` for `"team"`, otherwise raise
`ValueError` before touching the column) and run the pairing walk over the
whole column. -/
def get_opponent (column : List α) (entity : String) : Except PyErr (List α) :=
  if entity = "player" then getOpponentAux column 5 column.length 0 0
  else if entity = "team" then getOpponentAux column 1 column.length 0 0
  else .error .invalidArgument

/-- Specification-level value of the pairing walk on well-formed input: per
block of `gap * 2` elements, the second half followed by the first half. -/
def oppChunks (gap : Nat) : Nat → List α → List α
  | 0, _ => []
  | k + 1, l => (l.drop gap).take gap ++ (l.take gap ++ oppChunks gap k (l.drop (gap * 2)))

theorem getOpponentAux_succ_lt {column : List α} {gap n i flag : Nat} {v : α}
    (h1 : flag < gap) (hv : column[i + gap]? = some v) :
    getOpponentAux column gap (n + 1) i flag =
      (getOpponentAux column gap n (i + 1)
        (if gap * 2 ≤ flag + 1 then 0 else flag + 1)).map (fun r => v :: r) := by
  rw [getOpponentAux, if_pos h1, hv]

theorem getOpponentAux_succ_lt_none {column : List α} {gap n i flag : Nat}
    (h1 : flag < gap) (hv : column[i + gap]? = none) :
    getOpponentAux column gap (n + 1) i flag = .error .indexError := by
  rw [getOpponentAux, if_pos h1, hv]

theorem getOpponentAux_succ_mid {column : List α} {gap n i flag : Nat} {v : α}
    (h1 : ¬ flag < gap) (h2 : flag < gap * 2) (hv : pyGetSub column i gap = some v) :
    getOpponentAux column gap (n + 1) i flag =
      (getOpponentAux column gap n (i + 1)
        (if gap * 2 ≤ flag + 1 then 0 else flag + 1)).map (fun r => v :: r) := by
  rw [getOpponentAux, if_neg h1, if_pos h2, hv]

theorem getOpponentAux_succ_mid_none {column : List α} {gap n i flag : Nat}
    (h1 : ¬ flag < gap) (h2 : flag < gap * 2) (hv : pyGetSub column i gap = none) :
    getOpponentAux column gap (n + 1) i flag = .error .indexError := by
  rw [getOpponentAux, if_neg h1, if_pos h2, hv]

theorem getOpponentAux_succ_oob {column : List α} {gap n i flag : Nat}
    (h1 : ¬ flag < gap) (h2 : ¬ flag < gap * 2) :
    getOpponentAux column gap (n + 1) i flag = .error .flagOutOfBounds := by
  rw [getOpponentAux, if_neg h1, if_neg h2]

theorem except_map_map (x : Except PyErr (List α)) (f g : List α → List α) :
    (x.map f).map g = x.map (fun l => g (f l)) := by cases x <;> rfl

theorem except_map_congr {x : Except PyErr (List α)} {f g : List α → List α}
    (h : ∀ r, f r = g r) : x.map f = x.map g := by
  cases x with
  | error e => rfl
  | ok a => exact congrArg Except.ok (h a)

instance [DecidableEq ε] [DecidableEq α] : DecidableEq (Except ε α) := fun x y =>
  match x, y with
  | .error a, .error b =>
      if h : a = b then .isTrue (by rw [h]) else .isFalse (by intro he; cases he; exact h rfl)
  | .error _, .ok _ => .isFalse (fun h => Except.noConfusion h)
  | .ok _, .error _ => .isFalse (fun h => Except.noConfusion h)
  | .ok a, .ok b =>
      if h : a = b then .isTrue (by rw [h]) else .isFalse (by intro he; cases he; exact h rfl)

example : get_opponent ["A", "B"] "team" = .ok ["B", "A"] := by decide
example : get_opponent ["A", "B", "C"] "team" = .error .indexError := by decide
example : get_opponent [1, 2, 3, 4, 5, 6, 7, 8, 9, 10] "player" =
    .ok [6, 7, 8, 9, 10, 1, 2, 3, 4, 5] := by decide

/-- While `flag < gap` the walk copies the `c` elements `gap` positions ahead
of the cursor and leaves the counter at `gap`. -/
theorem getOpponentAux_run_first (column : List α) (gap : Nat) :
    ∀ c n i flag, flag + c = gap → i + gap + c ≤ column.length → c ≤ n →
      getOpponentAux column gap n i flag =
        (getOpponentAux column gap (n - c) (i + c) gap).map
          (fun r => (column.drop (i + gap)).take c ++ r) := by
  intro c
  induction c with
  | zero =>
      intro n i flag hflag _ _
      have hfg : flag = gap := by omega
      rw [hfg]
      simp only [Nat.sub_zero, Nat.add_zero, List.take_zero, List.nil_append]
      cases getOpponentAux column gap n i gap <;> rfl
  | succ c ih =>
      intro n i flag hflag hle hcn
      obtain ⟨n', rfl⟩ : ∃ n', n = n' + 1 := ⟨n - 1, by omega⟩
      have hflaglt : flag < gap := by omega
      have hidx : i + gap < column.length := by omega
      rw [getOpponentAux_succ_lt hflaglt (List.getElem?_eq_getElem hidx),
        if_neg (by omega : ¬ gap * 2 ≤ flag + 1),
        ih n' (i + 1) (flag + 1) (by omega) (by omega) (by omega), except_map_map]
      have h1 : i + 1 + c = i + (c + 1) := by omega
      have h2 : n' - c = n' + 1 - (c + 1) := by omega
      have h3 : (column.drop (i + gap)).take (c + 1) =
          column[i + gap] :: (column.drop (i + 1 + gap)).take c := by
        rw [List.drop_eq_getElem_cons hidx, List.take_succ_cons,
          (by omega : i + gap + 1 = i + 1 + gap)]
      rw [h1, h2, h3]
      exact except_map_congr (fun r => (List.cons_append _ _ _).symm)

/-- While `gap ≤ flag < gap * 2` the walk copies the `c + 1` elements `gap`
positions behind the cursor and resets the counter to `0`. -/
theorem getOpponentAux_run_second (column : List α) (gap : Nat) :
    ∀ c n i flag, flag + (c + 1) = gap * 2 → gap ≤ flag → gap ≤ i →
      i + (c + 1) ≤ column.length → c + 1 ≤ n →
      getOpponentAux column gap n i flag =
        (getOpponentAux column gap (n - (c + 1)) (i + (c + 1)) 0).map
          (fun r => (column.drop (i - gap)).take (c + 1) ++ r) := by
  intro c
  induction c with
  | zero =>
      intro n i flag hflag hgf hgi hlen hcn
      obtain ⟨n', rfl⟩ : ∃ n', n = n' + 1 := ⟨n - 1, by omega⟩
      have hsub : i - gap < column.length := by omega
      have hv : pyGetSub column i gap = some column[i - gap] := by
        rw [pyGetSub, if_pos hgi, List.getElem?_eq_getElem hsub]
      rw [getOpponentAux_succ_mid (by omega) (by omega) hv,
        if_pos (by omega : gap * 2 ≤ flag + 1)]
      have h3 : (column.drop (i - gap)).take (0 + 1) = [column[i - gap]] := by
        rw [List.drop_eq_getElem_cons hsub]
        rfl
      rw [h3]
      exact except_map_congr (fun r => List.singleton_append.symm)
  | succ c ih =>
      intro n i flag hflag hgf hgi hlen hcn
      obtain ⟨n', rfl⟩ : ∃ n', n = n' + 1 := ⟨n - 1, by omega⟩
      have hsub : i - gap < column.length := by omega
      have hv : pyGetSub column i gap = some column[i - gap] := by
        rw [pyGetSub, if_pos hgi, List.getElem?_eq_getElem hsub]
      rw [getOpponentAux_succ_mid (by omega) (by omega) hv,
        if_neg (by omega : ¬ gap * 2 ≤ flag + 1),
        ih n' (i + 1) (flag + 1) (by omega) (by omega) (by omega) (by omega) (by omega),
        except_map_map]
      have h1 : i + 1 + (c + 1) = i + (c + 1 + 1) := by omega
      have h2 : n' - (c + 1) = n' + 1 - (c + 1 + 1) := by omega
      have h3 : (column.drop (i - gap)).take (c + 1 + 1) =
          column[i - gap] :: (column.drop (i + 1 - gap)).take (c + 1) := by
        rw [List.drop_eq_getElem_cons hsub, List.take_succ_cons,
          (by omega : i - gap + 1 = i + 1 - gap)]
      rw [h1, h2, h3]
      exact except_map_congr (fun r => (List.cons_append _ _ _).symm)

/-- One full window of `gap * 2` iterations starting at a window boundary
swaps the two halves of the window and moves on with counter `0`. -/
theorem getOpponentAux_window (column : List α) (gap n i : Nat) (hgap : 1 ≤ gap)
    (hlen : i + gap * 2 ≤ column.length) (hn : gap * 2 ≤ n) :
    getOpponentAux column gap n i 0 =
      (getOpponentAux column gap (n - gap * 2) (i + gap * 2) 0).map
        (fun r => (column.drop (i + gap)).take gap ++ ((column.drop i).take gap ++ r)) := by
  rw [getOpponentAux_run_first column gap gap n i 0 (by omega) (by omega) (by omega)]
  have h2 := getOpponentAux_run_second column gap (gap - 1) (n - gap) (i + gap) gap
    (by omega) (by omega) (by omega) (by omega) (by omega)
  rw [(by omega : gap - 1 + 1 = gap)] at h2
  rw [h2, except_map_map]
  rw [(by omega : i + gap + gap = i + gap * 2), (by omega : n - gap - gap = n - gap * 2),
    (by omega : i + gap - gap = i)]

/-- On a column whose remaining length is a multiple of `gap * 2` the walk
succeeds and returns the half-swapped windows. -/
theorem getOpponentAux_ok (column : List α) (gap : Nat) (hgap : 1 ≤ gap) :
    ∀ k i, i + gap * 2 * k = column.length →
      getOpponentAux column gap (column.length - i) i 0 =
        .ok (oppChunks gap k (column.drop i)) := by
  intro k
  induction k with
  | zero =>
      intro i hi
      have : column.length - i = 0 := by omega
      rw [this]
      rfl
  | succ k ih =>
      intro i hi
      have hexp : gap * 2 * (k + 1) = gap * 2 * k + gap * 2 := by ring
      rw [getOpponentAux_window column gap (column.length - i) i hgap (by omega) (by omega)]
      rw [(by omega : column.length - i - gap * 2 = column.length - (i + gap * 2))]
      rw [ih (i + gap * 2) (by omega)]
      rw [oppChunks]
      rw [List.drop_drop, List.drop_drop]
      rfl

/-- Inside a trailing window that is shorter than `gap * 2`, the forward
lookup eventually escapes the end of the column and the walk raises
`IndexError`. -/
theorem getOpponentAux_err_tail (column : List α) (gap : Nat) :
    ∀ n i flag, 1 ≤ n → flag < gap → i + n = column.length →
      column.length + flag < i + gap * 2 →
      getOpponentAux column gap n i flag = .error .indexError := by
  intro n
  induction n with
  | zero => intro i flag h1 _ _ _; omega
  | succ n ih =>
      intro i flag _ hflag hlen hshort
      by_cases hidx : i + gap < column.length
      · rw [getOpponentAux_succ_lt hflag (List.getElem?_eq_getElem hidx),
          if_neg (by omega : ¬ gap * 2 ≤ flag + 1),
          ih (i + 1) (flag + 1) (by omega) (by omega) (by omega) (by omega)]
        rfl
      · rw [getOpponentAux_succ_lt_none hflag (List.getElem?_eq_none (by omega))]

/-- On a column whose remaining length is not a multiple of `gap * 2` the
walk raises `IndexError`. -/
theorem getOpponentAux_err (column : List α) (gap : Nat) (hgap : 1 ≤ gap) :
    ∀ m i, ¬ (gap * 2 ∣ m) → i + m = column.length →
      getOpponentAux column gap m i 0 = .error .indexError := by
  intro m
  induction m using Nat.strong_induction_on with
  | _ m ih =>
      intro i hdvd hlen
      by_cases hsmall : m < gap * 2
      · have hm1 : 1 ≤ m := by
          rcases Nat.eq_zero_or_pos m with h0 | h1
          · exact absurd (h0 ▸ Nat.dvd_zero (gap * 2)) hdvd
          · exact h1
        exact getOpponentAux_err_tail column gap m i 0 hm1 (by omega) hlen (by omega)
      · push_neg at hsmall
        have hdvd' : ¬ gap * 2 ∣ (m - gap * 2) := by
          intro hd
          apply hdvd
          have hsum := Nat.dvd_add hd (Nat.dvd_refl (gap * 2))
          rwa [Nat.sub_add_cancel hsmall] at hsum
        rw [getOpponentAux_window column gap m i hgap (by omega) hsmall]
        rw [ih (m - gap * 2) (by omega) (i + gap * 2) hdvd' (by omega)]
        rfl

theorem oppChunks_length (gap : Nat) :
    ∀ k (l : List α), gap * 2 * k ≤ l.length → (oppChunks gap k l).length = gap * 2 * k := by
  intro k
  induction k with
  | zero => intro l _; simp [oppChunks]
  | succ k ih =>
      intro l hl
      have hexp : gap * 2 * (k + 1) = gap * 2 * k + gap * 2 := by ring
      have hrest : gap * 2 * k ≤ (l.drop (gap * 2)).length := by
        rw [List.length_drop]; omega
      rw [oppChunks]
      simp only [List.length_append, List.length_take, List.length_drop, ih _ hrest]
      omega

/-- Element `p` of window `w` (first half) of the swapped list is element
`p + gap` of the same window of the input. -/
theorem oppChunks_getElem_first (gap : Nat) :
    ∀ k (l : List α), l.length = gap * 2 * k →
      ∀ w p, p < gap → (oppChunks gap k l)[gap * 2 * w + p]? = l[gap * 2 * w + p + gap]? := by
  intro k
  induction k with
  | zero =>
      intro l hl w p _
      have : l = [] := List.length_eq_zero.mp (by omega)
      subst this
      simp [oppChunks]
  | succ k ih =>
      intro l hl w p hp
      have hexp : gap * 2 * (k + 1) = gap * 2 * k + gap * 2 := by ring
      have hBlen : ((l.drop gap).take gap).length = gap := by
        simp only [List.length_take, List.length_drop]
        omega
      have hAlen : (l.take gap).length = gap := by
        simp only [List.length_take]
        omega
      rw [oppChunks]
      cases w with
      | zero =>
          have hidx : gap * 2 * 0 + p = p := by omega
          rw [hidx, List.getElem?_append_left (by omega), List.getElem?_take_of_lt hp,
            List.getElem?_drop, Nat.add_comm gap p]
      | succ w =>
          have hidx : gap * 2 * (w + 1) + p = gap * 2 * w + p + gap * 2 := by ring
          rw [hidx, List.getElem?_append_right (by omega),
            List.getElem?_append_right (by simp only [hAlen]; omega)]
          have hrest : (l.drop (gap * 2)).length = gap * 2 * k := by
            rw [List.length_drop]; omega
          have hsub : gap * 2 * w + p + gap * 2 - ((l.drop gap).take gap).length -
              (l.take gap).length = gap * 2 * w + p := by
            rw [hBlen, hAlen]; omega
          rw [hsub, ih _ hrest w p hp, List.getElem?_drop,
            (by ring : gap * 2 + (gap * 2 * w + p + gap) = gap * 2 * w + p + gap * 2 + gap)]

/-- Element `gap + p` of window `w` (second half) of the swapped list is
element `p` of the same window of the input. -/
theorem oppChunks_getElem_second (gap : Nat) :
    ∀ k (l : List α), l.length = gap * 2 * k →
      ∀ w p, p < gap →
        (oppChunks gap k l)[gap * 2 * w + (gap + p)]? = l[gap * 2 * w + p]? := by
  intro k
  induction k with
  | zero =>
      intro l hl w p _
      have : l = [] := List.length_eq_zero.mp (by omega)
      subst this
      simp [oppChunks]
  | succ k ih =>
      intro l hl w p hp
      have hexp : gap * 2 * (k + 1) = gap * 2 * k + gap * 2 := by ring
      have hBlen : ((l.drop gap).take gap).length = gap := by
        simp only [List.length_take, List.length_drop]
        omega
      have hAlen : (l.take gap).length = gap := by
        simp only [List.length_take]
        omega
      rw [oppChunks]
      cases w with
      | zero =>
          rw [(by omega : gap * 2 * 0 + (gap + p) = gap + p),
            List.getElem?_append_right (by omega)]
          have hsub : gap + p - ((l.drop gap).take gap).length = p := by rw [hBlen]; omega
          rw [hsub, List.getElem?_append_left (by omega), List.getElem?_take_of_lt hp,
            (by omega : gap * 2 * 0 + p = p)]
      | succ w =>
          have hidx : gap * 2 * (w + 1) + (gap + p) = gap * 2 * w + (gap + p) + gap * 2 := by
            ring
          rw [hidx, List.getElem?_append_right (by omega),
            List.getElem?_append_right (by simp only [hAlen]; omega)]
          have hrest : (l.drop (gap * 2)).length = gap * 2 * k := by
            rw [List.length_drop]; omega
          have hsub : gap * 2 * w + (gap + p) + gap * 2 - ((l.drop gap).take gap).length -
              (l.take gap).length = gap * 2 * w + (gap + p) := by
            rw [hBlen, hAlen]; omega
          rw [hsub, ih _ hrest w p hp, List.getElem?_drop,
            (by ring : gap * 2 + (gap * 2 * w + p) = gap * 2 * (w + 1) + p)]

theorem drop_double_append {B A R : List α} {gap : Nat}
    (hB : B.length = gap) (hA : A.length = gap) :
    (B ++ (A ++ R)).drop (gap * 2) = R := by
  rw [(by omega : gap * 2 = gap + gap), ← List.drop_drop, List.drop_left' hB,
    List.drop_left' hA]

/-- Swapping the halves of every window twice gives back the input. -/
theorem oppChunks_involutive (gap : Nat) :
    ∀ k (l : List α), l.length = gap * 2 * k → oppChunks gap k (oppChunks gap k l) = l := by
  intro k
  induction k with
  | zero =>
      intro l hl
      have : l = [] := List.length_eq_zero.mp (by omega)
      subst this
      rfl
  | succ k ih =>
      intro l hl
      have hexp : gap * 2 * (k + 1) = gap * 2 * k + gap * 2 := by ring
      have hBlen : ((l.drop gap).take gap).length = gap := by
        simp only [List.length_take, List.length_drop]
        omega
      have hAlen : (l.take gap).length = gap := by
        simp only [List.length_take]
        omega
      have hrest : (l.drop (gap * 2)).length = gap * 2 * k := by
        rw [List.length_drop]; omega
      rw [oppChunks, oppChunks]
      rw [List.drop_left' hBlen, List.take_left' hAlen, List.take_left' hBlen,
        drop_double_append hBlen hAlen, ih _ hrest]
      rw [← List.append_assoc, ← List.take_add, (by omega : gap + gap = gap * 2),
        List.take_append_drop]

theorem get_opponent_gap (column : List α) {entity : String} {gap : Nat}
    (h : (entity = "team" ∧ gap = 1) ∨ (entity = "player" ∧ gap = 5)) :
    get_opponent column entity = getOpponentAux column gap column.length 0 0 := by
  rcases h with ⟨he, hg⟩ | ⟨he, hg⟩ <;> subst he <;> subst hg <;> rfl

theorem get_opponent_ok (column : List α) {entity : String} {gap : Nat}
    (hent : (entity = "team" ∧ gap = 1) ∨ (entity = "player" ∧ gap = 5))
    {k : Nat} (hk : column.length = gap * 2 * k) :
    get_opponent column entity = .ok (oppChunks gap k column) := by
  have hgap : 1 ≤ gap := by rcases hent with ⟨_, h⟩ | ⟨_, h⟩ <;> omega
  rw [get_opponent_gap column hent]
  have h := getOpponentAux_ok column gap hgap k 0 (by omega)
  rwa [Nat.sub_zero, List.drop_zero] at h

/-- C1: on a column whose length is a multiple of `2 * g`, with `g = 1` for
entity `"team"` and `g = 5` for entity `"player"`, `get_opponent` returns a
list of the same length in which, inside every window of `2 * g` consecutive
elements, each of the first `g` elements is paired with the element `g`
positions ahead and each of the next `g` elements with the element `g`
positions behind; in particular the sorted 2-row team-view group with
teamnames `["A", "B"]` and earned-gold values `[250, 300]` yields opponent
columns `["B", "A"]` and `[300, 250]`. -/
theorem get_opponent_window_pairing :
    (∀ (α : Type) (column : List α) (entity : String) (gap : Nat),
        (entity = "team" ∧ gap = 1) ∨ (entity = "player" ∧ gap = 5) →
        gap * 2 ∣ column.length →
        ∃ out, get_opponent column entity = .ok out ∧ out.length = column.length ∧
          (∀ w p, p < gap → out[gap * 2 * w + p]? = column[gap * 2 * w + p + gap]?) ∧
          (∀ w p, p < gap → out[gap * 2 * w + (gap + p)]? = column[gap * 2 * w + p]?)) ∧
      get_opponent ["A", "B"] "team" = .ok ["B", "A"] ∧
      get_opponent [(250 : Int), 300] "team" = .ok [300, 250] := by
  refine ⟨?_, by decide, by decide⟩
  intro α column entity gap hent hdvd
  obtain ⟨k, hk⟩ := hdvd
  refine ⟨oppChunks gap k column, get_opponent_ok column hent hk, ?_, ?_, ?_⟩
  · rw [oppChunks_length gap k column (by omega), hk]
  · exact oppChunks_getElem_first gap k column hk
  · exact oppChunks_getElem_second gap k column hk

theorem get_opponent_window_pairing_witness :
    ∃ out, get_opponent ["a", "b", "c", "d"] "team" = .ok out ∧
      out.length = (["a", "b", "c", "d"] : List String).length ∧
      (∀ w p, p < 1 →
        out[1 * 2 * w + p]? = (["a", "b", "c", "d"] : List String)[1 * 2 * w + p + 1]?) ∧
      (∀ w p, p < 1 →
        out[1 * 2 * w + (1 + p)]? = (["a", "b", "c", "d"] : List String)[1 * 2 * w + p]?) :=
  get_opponent_window_pairing.1 String ["a", "b", "c", "d"] "team" 1
    (Or.inl ⟨rfl, rfl⟩) (by decide)

/-- C3: the opponent pairing is an involution: on a column whose length is a
multiple of `2 * g`, with `g = 1` for entity `"team"` and `g = 5` for entity
`"player"`, applying `get_opponent` twice returns the original column. -/
theorem get_opponent_involution :
    ∀ (α : Type) (column : List α) (entity : String) (gap : Nat),
      (entity = "team" ∧ gap = 1) ∨ (entity = "player" ∧ gap = 5) →
      gap * 2 ∣ column.length →
      ∃ out, get_opponent column entity = .ok out ∧ get_opponent out entity = .ok column := by
  intro α column entity gap hent hdvd
  obtain ⟨k, hk⟩ := hdvd
  refine ⟨oppChunks gap k column, get_opponent_ok column hent hk, ?_⟩
  have hlen : (oppChunks gap k column).length = gap * 2 * k :=
    oppChunks_length gap k column (by omega)
  rw [get_opponent_ok (oppChunks gap k column) hent hlen,
    oppChunks_involutive gap k column hk]

theorem get_opponent_involution_witness :
    ∃ out, get_opponent [(1 : Int), 2, 3, 4, 5, 6, 7, 8, 9, 10] "player" = .ok out ∧
      get_opponent out "player" = .ok [(1 : Int), 2, 3, 4, 5, 6, 7, 8, 9, 10] :=
  get_opponent_involution Int [(1 : Int), 2, 3, 4, 5, 6, 7, 8, 9, 10] "player" 5
    (Or.inr ⟨rfl, rfl⟩) (by decide)

/-- C4: on a column where the pairing walk would address an element outside
the column, which happens exactly when the length is not a multiple of
`2 * g` (with `g = 1` for `"team"` and `g = 5` for `"player"`),
`get_opponent` raises `IndexError` instead of producing any output list. -/
theorem get_opponent_misaligned_errors :
    ∀ (α : Type) (column : List α) (entity : String) (gap : Nat),
      (entity = "team" ∧ gap = 1) ∨ (entity = "player" ∧ gap = 5) →
      ¬ (gap * 2 ∣ column.length) →
      get_opponent column entity = .error PyErr.indexError := by
  intro α column entity gap hent hdvd
  have hgap : 1 ≤ gap := by rcases hent with ⟨_, h⟩ | ⟨_, h⟩ <;> omega
  rw [get_opponent_gap column hent]
  exact getOpponentAux_err column gap hgap column.length 0 hdvd (by omega)

theorem get_opponent_misaligned_errors_witness :
    get_opponent ["a", "b", "c"] "team" = .error PyErr.indexError :=
  get_opponent_misaligned_errors String ["a", "b", "c"] "team" 1
    (Or.inl ⟨rfl, rfl⟩) (by decide)

/-- Recognizer for the `ValueError("Index i - Out Of Bounds")` outcome of the
pairing walk. -/
def isFlagOOB : Except PyErr (List α) → Bool
  | .error .flagOutOfBounds => true
  | _ => false

theorem isFlagOOB_map (x : Except PyErr (List α)) (f : List α → List α) :
    isFlagOOB (x.map f) = isFlagOOB x := by
  cases x with
  | ok a => rfl
  | error e => cases e <;> rfl

/-- Starting from any counter value below `gap * 2`, the walk never reaches
the explicit out-of-bounds branch. -/
theorem getOpponentAux_no_flag_oob (column : List α) (gap : Nat) :
    ∀ n i flag, flag < gap * 2 → isFlagOOB (getOpponentAux column gap n i flag) = false := by
  intro n
  induction n with
  | zero => intro i flag _; rfl
  | succ n ih =>
      intro i flag hflag
      by_cases h1 : flag < gap
      · cases hv : column[i + gap]? with
        | some v =>
            rw [getOpponentAux_succ_lt h1 hv, isFlagOOB_map]
            by_cases h2 : gap * 2 ≤ flag + 1
            · rw [if_pos h2]; exact ih _ _ (by omega)
            · rw [if_neg h2]; exact ih _ _ (by omega)
        | none => rw [getOpponentAux_succ_lt_none h1 hv]; rfl
      · by_cases h2 : flag < gap * 2
        · cases hv : pyGetSub column i gap with
          | some v =>
              rw [getOpponentAux_succ_mid h1 h2 hv, isFlagOOB_map]
              by_cases h3 : gap * 2 ≤ flag + 1
              · rw [if_pos h3]; exact ih _ _ (by omega)
              · rw [if_neg h3]; exact ih _ _ (by omega)
          | none => rw [getOpponentAux_succ_mid_none h1 h2 hv]; rfl
        · omega

/-- C10: the explicit `Out Of Bounds` branch of `get_opponent` that is
guarded by the `flag` counter is unreachable: the counter starts at `0`,
stays in `[0, 2 * gap)` at the start of every iteration, and therefore the
walk never produces the `flagOutOfBounds` outcome, for every column and every
entity string. -/
theorem get_opponent_flag_branch_unreachable :
    ∀ (α : Type) (column : List α) (entity : String),
      isFlagOOB (get_opponent column entity) = false := by
  intro α column entity
  by_cases hp : entity = "player"
  · rw [get_opponent, if_pos hp]
    exact getOpponentAux_no_flag_oob column 5 column.length 0 0 (by omega)
  · by_cases ht : entity = "team"
    · rw [get_opponent, if_neg hp, if_pos ht]
      exact getOpponentAux_no_flag_oob column 1 column.length 0 0 (by omega)
    · rw [get_opponent, if_neg hp, if_neg ht]
      rfl

/-- The 24 columns kept by `OraclesElixir.subset_data` for `split_on="team"`
(src/oracles_elixir.py lines 150-178). -/
def teamColumns : List String :=
  ["date", "gameid", "side", "league", "teamname", "teamid", "result", "kills",
   "deaths", "assists", "earned gpm", "gamelength", "ckpm", "team kpm",
   "firstblood", "dragons", "barons", "towers", "goldat15", "xpat15", "csat15",
   "golddiffat15", "xpdiffat15", "csdiffat15"]

/-- The 31 columns kept by `OraclesElixir.subset_data` for `split_on="player"`
(src/oracles_elixir.py lines 179-214). -/
def playerColumns : List String :=
  ["date", "gameid", "side", "position", "league", "playername", "playerid",
   "teamname", "teamid", "result", "kills", "deaths", "assists", "total cs",
   "earned gpm", "earnedgoldshare", "gamelength", "ckpm", "team kpm",
   "goldat15", "xpat15", "csat15", "killsat15", "assistsat15", "deathsat15",
   "opp_killsat15", "opp_assistsat15", "opp_deathsat15", "golddiffat15",
   "xpdiffat15", "csdiffat15"]

/-- `OraclesElixir.subset_data` (src/oracles_elixir.py lines 149-216): rows
are modelled as association lists from column name to cell value; the team
and player splits project each row onto the fixed column lists above, and
any other `split_on` value raises `ValueError` without touching the table. -/
def subset_data {V : Type} (t : List (List (String × V))) (split_on : Option String) :
    Except PyErr (List (List (String × Option V))) :=
  if split_on = some "team" then
    .ok (t.map (fun row => teamColumns.map (fun c => (c, row.lookup c))))
  else if split_on = some "player" then
    .ok (t.map (fun row => playerColumns.map (fun c => (c, row.lookup c))))
  else
    .error .invalidArgument

/-- C6: for every `split_on` / entity value other than `"team"` and
`"player"`, both `subset_data` and `get_opponent` fail immediately with the
invalid-argument error and emit no rows or columns. -/
theorem invalid_split_rejected :
    ∀ (V α : Type) (t : List (List (String × V))) (s : Option String)
      (column : List α) (e : String),
      s ≠ some "team" → s ≠ some "player" → e ≠ "team" → e ≠ "player" →
      subset_data t s = .error PyErr.invalidArgument ∧
        get_opponent column e = .error PyErr.invalidArgument := by
  intro V α t s column e hs1 hs2 he1 he2
  constructor
  · rw [subset_data, if_neg hs1, if_neg hs2]
  · rw [get_opponent, if_neg he2, if_neg he1]

theorem invalid_split_rejected_witness :
    subset_data ([] : List (List (String × Nat))) none = .error PyErr.invalidArgument ∧
      get_opponent ([] : List Nat) "game" = .error PyErr.invalidArgument :=
  invalid_split_rejected Nat Nat [] none [] "game" (by decide) (by decide)
    (by decide) (by decide)

theorem filter_of_key_filter {ρ : Type} (key : ρ → String) (q : String → Bool)
    (t : List ρ) (g : String) :
    (t.filter (fun r => q (key r))).filter (fun r => decide (key r = g)) =
      if q g then t.filter (fun r => decide (key r = g)) else [] := by
  induction t with
  | nil => cases hq : q g <;> simp [hq]
  | cons a t ih =>
      simp only [List.filter_cons]
      by_cases hk : key a = g
      · rw [hk]
        cases hq : q g
        · simp [hq, ih]
        · simp [hq, ih, List.filter_cons, hk]
      · cases hqa : q (key a)
        · simp [hqa, hk, ih]
        · simp [hqa, hk, ih, List.filter_cons]

/-- Number of rows of `t` carrying gameid `g`; the value of
`self.oe_data["gameid"].value_counts()` at `g`. -/
def gameCount {ρ : Type} (gameid : ρ → String) (t : List ρ) (g : String) : Nat :=
  (t.filter (fun r => decide (gameid r = g))).length

/-- The per-gameid predicate of `OraclesElixir.remove_inconsistent_games`
(src/oracles_elixir.py line 221): a gameid is inconsistent when its row count
differs from 2 for the team split, and when it lies outside `[1, 10]`
otherwise. -/
def inconsistentGame {ρ : Type} (gameid : ρ → String) (split_on : Option String)
    (t : List ρ) (g : String) : Bool :=
  if split_on = some "team" then gameCount gameid t g != 2
  else decide (gameCount gameid t g < 1) || decide (10 < gameCount gameid t g)

/-- `OraclesElixir.remove_inconsistent_games` (src/oracles_elixir.py lines
218-223): keep exactly the rows whose gameid is not marked inconsistent. -/
def remove_inconsistent_games {ρ : Type} (gameid : ρ → String)
    (split_on : Option String) (t : List ρ) : List ρ :=
  t.filter (fun r => ! inconsistentGame gameid split_on t (gameid r))

theorem remove_inconsistent_filter_eq {ρ : Type} (gameid : ρ → String)
    (s : Option String) (t : List ρ) (g : String) :
    (remove_inconsistent_games gameid s t).filter (fun r => decide (gameid r = g)) =
      if inconsistentGame gameid s t g then []
      else t.filter (fun r => decide (gameid r = g)) := by
  unfold remove_inconsistent_games
  rw [filter_of_key_filter gameid (fun x => ! inconsistentGame gameid s t x) t g]
  cases h : inconsistentGame gameid s t g <;> simp [h]

theorem mem_remove_inconsistent {ρ : Type} {gameid : ρ → String}
    {s : Option String} {t : List ρ} {r : ρ}
    (hr : r ∈ remove_inconsistent_games gameid s t) :
    inconsistentGame gameid s t (gameid r) = false := by
  have h := (List.mem_filter.mp hr).2
  simpa using h

/-- C2: after `remove_inconsistent_games` with `split_on = "team"` every
remaining gameid has exactly 2 rows; with `split_on = "player"` every
remaining gameid has a row count in `[1, 10]`; and a gameid that violates its
bound loses all of its rows, not just some. -/
theorem remove_inconsistent_games_bounds :
    ∀ (ρ : Type) (gameid : ρ → String) (t : List ρ) (g : String),
      (((∃ r ∈ remove_inconsistent_games gameid (some "team") t, gameid r = g) →
          ((remove_inconsistent_games gameid (some "team") t).filter
            (fun r => decide (gameid r = g))).length = 2) ∧
        ((t.filter (fun r => decide (gameid r = g))).length ≠ 2 →
          (remove_inconsistent_games gameid (some "team") t).filter
            (fun r => decide (gameid r = g)) = [])) ∧
      (((∃ r ∈ remove_inconsistent_games gameid (some "player") t, gameid r = g) →
          1 ≤ ((remove_inconsistent_games gameid (some "player") t).filter
              (fun r => decide (gameid r = g))).length ∧
            ((remove_inconsistent_games gameid (some "player") t).filter
              (fun r => decide (gameid r = g))).length ≤ 10) ∧
        (¬ (1 ≤ (t.filter (fun r => decide (gameid r = g))).length ∧
            (t.filter (fun r => decide (gameid r = g))).length ≤ 10) →
          (remove_inconsistent_games gameid (some "player") t).filter
            (fun r => decide (gameid r = g)) = [])) := by
  intro ρ gameid t g
  have hteam_ne : ((some "team" : Option String) = some "team") := rfl
  have hplayer_ne : ¬ ((some "player" : Option String) = some "team") := by decide
  refine ⟨⟨?_, ?_⟩, ?_, ?_⟩
  · rintro ⟨r, hr, hg⟩
    have hinc := mem_remove_inconsistent hr
    rw [hg] at hinc
    rw [inconsistentGame, if_pos hteam_ne] at hinc
    have hcnt : gameCount gameid t g = 2 := by
      have := (bne_eq_false_iff_eq).mp hinc
      exact this
    have hincf : inconsistentGame gameid (some "team") t g = false := by
      rw [inconsistentGame, if_pos hteam_ne, hcnt]
      rfl
    rw [remove_inconsistent_filter_eq, hincf]
    exact hcnt
  · intro hne
    have hinc : inconsistentGame gameid (some "team") t g = true := by
      rw [inconsistentGame, if_pos hteam_ne]
      exact bne_iff_ne.mpr hne
    rw [remove_inconsistent_filter_eq, hinc]
    rfl
  · rintro ⟨r, hr, hg⟩
    have hinc := mem_remove_inconsistent hr
    rw [hg] at hinc
    rw [inconsistentGame, if_neg hplayer_ne] at hinc
    simp only [Bool.or_eq_false_iff, decide_eq_false_iff_not, Nat.not_lt] at hinc
    have hincf : inconsistentGame gameid (some "player") t g = false := by
      rw [inconsistentGame, if_neg hplayer_ne]
      simp only [Bool.or_eq_false_iff, decide_eq_false_iff_not, Nat.not_lt]
      exact hinc
    rw [remove_inconsistent_filter_eq, hincf]
    constructor
    · exact hinc.1
    · exact hinc.2
  · intro hout
    have hinc : inconsistentGame gameid (some "player") t g = true := by
      rw [inconsistentGame, if_neg hplayer_ne]
      simp only [Bool.or_eq_true, decide_eq_true_eq]
      have : gameCount gameid t g = (t.filter (fun r => decide (gameid r = g))).length := rfl
      omega
    rw [remove_inconsistent_filter_eq, hinc]
    rfl

theorem remove_inconsistent_games_bounds_witness :
    ((remove_inconsistent_games Prod.fst (some "team")
        [("g1", 1), ("g1", 2), ("g2", 3)]).filter
      (fun r => decide (Prod.fst r = "g1"))).length = 2 :=
  (remove_inconsistent_games_bounds (String × Nat) Prod.fst
      [("g1", 1), ("g1", 2), ("g2", 3)] "g1").1.1 (by decide)

/-- Match rows as seen by the cleaning filters: the columns read by
`format_ids`, `remove_null_games`, `drop_unknown_entities`,
`drop_negative_earned_gpm`, `fill_null_team_ids` and
`enrich_opponent_metrics`. A `none` models a pandas null (`NaN`). -/
structure MRow where
  gameid : Option String
  position : Option String
  playername : Option String
  teamname : Option String
  playerid : Option String
  teamid : Option String
  egpm : Option Int
deriving DecidableEq

/-- `OraclesElixir.format_ids` (src/oracles_elixir.py lines 120-124): keep
rows whose `gameid` and `position` are both non-null. -/
def format_ids (t : List MRow) : List MRow :=
  t.filter (fun r => r.gameid.isSome && r.position.isSome)

/-- `OraclesElixir.remove_null_games` (lines 126-127): drop rows with a null
`gameid`. -/
def remove_null_games (t : List MRow) : List MRow :=
  t.filter (fun r => r.gameid.isSome)

/-- `OraclesElixir.drop_unknown_entities` (lines 129-133): drop rows whose
`playername` is `"unknown player"` or whose `teamname` is `"unknown team"`. -/
def drop_unknown_entities (t : List MRow) : List MRow :=
  t.filter (fun r =>
    !(r.playername == some "unknown player") && !(r.teamname == some "unknown team"))

/-- `OraclesElixir.drop_negative_earned_gpm` (lines 135-136): keep rows with
`earned gpm >= 0`; a null comparison is false in pandas, so null rows drop. -/
def drop_negative_earned_gpm (t : List MRow) : List MRow :=
  t.filter (fun r => match r.egpm with
    | some v => decide (0 ≤ v)
    | none => false)

/-- The filter sequence of `OraclesElixir.clean_data` (lines 278-281) in
source order. -/
def row_filters (t : List MRow) : List MRow :=
  drop_negative_earned_gpm (drop_unknown_entities (remove_null_games (format_ids t)))

/-- C7: the four row filters are idempotent as a sequence: running them a
second time over an already-filtered table changes nothing. -/
theorem row_filters_idempotent : ∀ t : List MRow, row_filters (row_filters t) = row_filters t := by
  intro t
  have hsub : ∀ p : MRow → Bool, (∀ a ∈ row_filters t, p a = true) →
      List.filter p (row_filters t) = row_filters t :=
    fun p h => List.filter_eq_self.mpr h
  have hmem : ∀ a ∈ row_filters t,
      (a.gameid.isSome && a.position.isSome) = true ∧
      a.gameid.isSome = true ∧
      (!(a.playername == some "unknown player") && !(a.teamname == some "unknown team")) = true ∧
      (match a.egpm with | some v => decide (0 ≤ v) | none => false) = true := by
    intro a ha
    unfold row_filters drop_negative_earned_gpm at ha
    have h4 := List.of_mem_filter ha
    have ha3 := List.mem_of_mem_filter ha
    unfold drop_unknown_entities at ha3
    have h3 := List.of_mem_filter ha3
    have ha2 := List.mem_of_mem_filter ha3
    unfold remove_null_games at ha2
    have h2 := List.of_mem_filter ha2
    have ha1 := List.mem_of_mem_filter ha2
    unfold format_ids at ha1
    have h1 := List.of_mem_filter ha1
    exact ⟨h1, h2, h3, h4⟩
  conv_lhs => rw [row_filters]
  rw [show format_ids (row_filters t) = row_filters t from
      hsub _ (fun a ha => (hmem a ha).1),
    show remove_null_games (row_filters t) = row_filters t from
      hsub _ (fun a ha => (hmem a ha).2.1),
    show drop_unknown_entities (row_filters t) = row_filters t from
      hsub _ (fun a ha => (hmem a ha).2.2.1),
    show drop_negative_earned_gpm (row_filters t) = row_filters t from
      hsub _ (fun a ha => (hmem a ha).2.2.2)]

/-- `OraclesElixir.fill_null_team_ids` (src/oracles_elixir.py lines 231-234):
for the player split, a null `teamid` is replaced by that row's `teamname`. -/
def fill_null_team_ids (split_on : String) (t : List MRow) : List MRow :=
  if split_on = "player" then
    t.map (fun r => { r with teamid := r.teamid.or r.teamname })
  else t

/-- The first statement of the player branch of
`OraclesElixir.enrich_opponent_metrics` (line 238): a null `playerid` is
replaced by that row's `playername`. -/
def fill_null_player_ids (t : List MRow) : List MRow :=
  t.map (fun r => { r with playerid := r.playerid.or r.playername })

/-- The data frame produced by `enrich_opponent_metrics`: the input rows plus
the opponent columns; the two team-opponent columns exist only for the player
split. -/
structure EnrichedData where
  rows : List MRow
  opponentteam : Option (List (Option String))
  opponentteamid : Option (List (Option String))
  opponentname : List (Option String)
  opponentid : List (Option String)
  opponent_egpm : List (Option Int)
deriving DecidableEq

/-- `OraclesElixir.enrich_opponent_metrics` (src/oracles_elixir.py lines
236-246): for the player split, first backfill `playerid` from `playername`,
then derive `opponentteam` and `opponentteamid`; in all cases derive
`opponentname`, `opponentid` and `opponent_egpm` with `get_opponent`; any
exception from `get_opponent` aborts the whole call. -/
def enrich_opponent_metrics (split_on : String) (t : List MRow) :
    Except PyErr EnrichedData :=
  if split_on = "player" then
    match get_opponent ((fill_null_player_ids t).map (fun r => r.teamname)) split_on with
    | .error e => .error e
    | .ok oteam =>
      match get_opponent ((fill_null_player_ids t).map (fun r => r.teamid)) split_on with
      | .error e => .error e
      | .ok oteamid =>
        match get_opponent ((fill_null_player_ids t).map (fun r => r.playername)) split_on with
        | .error e => .error e
        | .ok oname =>
          match get_opponent ((fill_null_player_ids t).map (fun r => r.playerid)) split_on with
          | .error e => .error e
          | .ok oid =>
            match get_opponent ((fill_null_player_ids t).map (fun r => r.egpm)) split_on with
            | .error e => .error e
            | .ok oegpm =>
                .ok ⟨fill_null_player_ids t, some oteam, some oteamid, oname, oid, oegpm⟩
  else
    match get_opponent (t.map (fun r => r.playername)) split_on with
    | .error e => .error e
    | .ok oname =>
      match get_opponent (t.map (fun r => r.playerid)) split_on with
      | .error e => .error e
      | .ok oid =>
        match get_opponent (t.map (fun r => r.egpm)) split_on with
        | .error e => .error e
        | .ok oegpm => .ok ⟨t, none, none, oname, oid, oegpm⟩

theorem option_or_isSome {σ : Type} (a b : Option σ) (hb : b.isSome = true) :
    (a.or b).isSome = true := by
  cases a <;> simp [Option.or, hb]

/-- C8: in a player-view table whose `teamname` and `playername` are non-null
in every row (and whose length lets the pairing walk succeed), the identity
backfill leaves no null `teamid` or `playerid` — a null `teamid` becomes that
row's `teamname`, a null `playerid` that row's `playername` — and the
opponent id columns are computed by `get_opponent` from the already
backfilled columns. -/
theorem backfill_before_pairing :
    ∀ t : List MRow,
      5 * 2 ∣ t.length →
      (∀ r ∈ t, r.teamname.isSome = true ∧ r.playername.isSome = true) →
      ∃ res oteamid oid,
        enrich_opponent_metrics "player" (fill_null_team_ids "player" t) = .ok res ∧
        (∀ r ∈ res.rows, r.teamid.isSome = true ∧ r.playerid.isSome = true) ∧
        get_opponent (res.rows.map (fun r => r.teamid)) "player" = .ok oteamid ∧
        res.opponentteamid = some oteamid ∧
        get_opponent (res.rows.map (fun r => r.playerid)) "player" = .ok oid ∧
        res.opponentid = oid := by
  intro t hdvd hnames
  obtain ⟨k, hk⟩ := hdvd
  have hlen1 : (fill_null_team_ids "player" t).length = t.length := by
    rw [fill_null_team_ids, if_pos rfl, List.length_map]
  have hlen2 : (fill_null_player_ids (fill_null_team_ids "player" t)).length = t.length := by
    rw [fill_null_player_ids, List.length_map, hlen1]
  have hcall : ∀ (β : Type) (f : MRow → β),
      get_opponent ((fill_null_player_ids (fill_null_team_ids "player" t)).map f) "player" =
        .ok (oppChunks 5 k
          ((fill_null_player_ids (fill_null_team_ids "player" t)).map f)) := by
    intro β f
    exact get_opponent_ok _ (Or.inr ⟨rfl, rfl⟩) (by rw [List.length_map, hlen2, hk])
  refine ⟨⟨fill_null_player_ids (fill_null_team_ids "player" t),
      some (oppChunks 5 k
        ((fill_null_player_ids (fill_null_team_ids "player" t)).map (fun r => r.teamname))),
      some (oppChunks 5 k
        ((fill_null_player_ids (fill_null_team_ids "player" t)).map (fun r => r.teamid))),
      oppChunks 5 k
        ((fill_null_player_ids (fill_null_team_ids "player" t)).map (fun r => r.playername)),
      oppChunks 5 k
        ((fill_null_player_ids (fill_null_team_ids "player" t)).map (fun r => r.playerid)),
      oppChunks 5 k
        ((fill_null_player_ids (fill_null_team_ids "player" t)).map (fun r => r.egpm))⟩,
    oppChunks 5 k
      ((fill_null_player_ids (fill_null_team_ids "player" t)).map (fun r => r.teamid)),
    oppChunks 5 k
      ((fill_null_player_ids (fill_null_team_ids "player" t)).map (fun r => r.playerid)),
    ?_, ?_, ?_, ?_, ?_, ?_⟩
  · rw [enrich_opponent_metrics, if_pos rfl, hcall _ (fun r => r.teamname),
      hcall _ (fun r => r.teamid), hcall _ (fun r => r.playername),
      hcall _ (fun r => r.playerid), hcall _ (fun r => r.egpm)]
  · intro r hr
    rw [fill_null_player_ids] at hr
    obtain ⟨r1, hr1, rfl⟩ := List.mem_map.mp hr
    rw [fill_null_team_ids, if_pos rfl] at hr1
    obtain ⟨r0, hr0, rfl⟩ := List.mem_map.mp hr1
    have hn := hnames r0 hr0
    constructor
    · exact option_or_isSome _ _ hn.1
    · exact option_or_isSome _ _ hn.2
  · exact hcall _ (fun r => r.teamid)
  · rfl
  · exact hcall _ (fun r => r.playerid)
  · rfl

theorem backfill_before_pairing_witness :
    ∃ res oteamid oid,
      enrich_opponent_metrics "player"
          (fill_null_team_ids "player"
            (List.replicate 10 (⟨none, none, some "P", some "T", none, none, none⟩ : MRow))) =
        .ok res ∧
      (∀ r ∈ res.rows, r.teamid.isSome = true ∧ r.playerid.isSome = true) ∧
      get_opponent (res.rows.map (fun r => r.teamid)) "player" = .ok oteamid ∧
      res.opponentteamid = some oteamid ∧
      get_opponent (res.rows.map (fun r => r.playerid)) "player" = .ok oid ∧
      res.opponentid = oid :=
  backfill_before_pairing
    (List.replicate 10 (⟨none, none, some "P", some "T", none, none, none⟩ : MRow))
    (by decide) (by decide)

/-- Raw rows as read by `format_data_types`: the date and id columns it
touches. -/
structure RawRow where
  date : String
  gameid : String
  playerid : String
  teamid : String
  position : String
deriving DecidableEq

/-- `OraclesElixir.format_data_types` (src/oracles_elixir.py lines 104-118).
The external `pd.to_datetime` is abstracted as the `parse` argument; a
malformed date makes it `none` and the whole call fails. The next source
statement applies the `.str` accessor to the three-column frame
`self.oe_data[["gameid", "playerid", "teamid"]]`; pandas defines `.str` on
`Series` only, a `DataFrame` has no such attribute, so that statement raises
`AttributeError` on every input before any trimming or null-replacement of
`gameid`/`playerid`/`teamid`/`position` can happen. -/
def format_data_types (parse : String → Option Nat) (t : List RawRow) :
    Except PyErr (List RawRow) :=
  match t.mapM (fun r => parse r.date) with
  | none => .error .parseError
  | some _ => .error .attributeError

/-- C5: evaluating `format_data_types` on a well-formed one-row table: the
call raises `AttributeError` instead of returning the table with trimmed id
columns and null markers that the claim describes, because the source
applies `.str.strip()` to a `DataFrame` and `DataFrame` has no `.str`
accessor. -/
theorem format_data_types_attribute_error :
    format_data_types (fun s => if s = "2023-01-05" then some 738890 else none)
      [⟨"2023-01-05", " GAME-1 ", " P1 ", " T1 ", "top"⟩] = .error PyErr.attributeError := by
  rfl

/-- `DataFrame.groupby(key).tail(1)`: keep, in order, the last row of each
key group. -/
def tailOne {ρ κ : Type} [DecidableEq κ] (key : ρ → κ) : List ρ → List ρ
  | [] => []
  | r :: rs =>
      if rs.any (fun x => decide (key x = key r)) then tailOne key rs
      else r :: tailOne key rs

theorem tailOne_subset {ρ κ : Type} [DecidableEq κ] (key : ρ → κ) :
    ∀ l : List ρ, ∀ r ∈ tailOne key l, r ∈ l := by
  intro l
  induction l with
  | nil => intro r hr; exact absurd hr (List.not_mem_nil r)
  | cons a t ih =>
      intro r hr
      rw [tailOne] at hr
      by_cases h : t.any (fun x => decide (key x = key a)) = true
      · rw [if_pos h] at hr
        exact List.mem_cons_of_mem a (ih r hr)
      · rw [if_neg h] at hr
        rcases List.mem_cons.mp hr with h1 | h1
        · rw [h1]; exact List.mem_cons_self a t
        · exact List.mem_cons_of_mem a (ih r h1)

/-- In a list where rows of equal key appear in nondecreasing date order, the
row kept by `tailOne` carries the greatest date of its key group. -/
theorem tailOne_max {ρ κ : Type} [DecidableEq κ] (key : ρ → κ) (date : ρ → Nat) :
    ∀ l : List ρ, l.Pairwise (fun a b => key a = key b → date a ≤ date b) →
      ∀ r ∈ tailOne key l, ∀ x ∈ l, key x = key r → date x ≤ date r := by
  intro l
  induction l with
  | nil => intro _ r hr; exact absurd hr (List.not_mem_nil r)
  | cons a t ih =>
      intro hp r hr x hx hxy
      rw [List.pairwise_cons] at hp
      rw [tailOne] at hr
      by_cases h : t.any (fun x => decide (key x = key a)) = true
      · rw [if_pos h] at hr
        rcases List.mem_cons.mp hx with h1 | h1
        · have hrt : r ∈ t := tailOne_subset key t r hr
          rw [h1]
          exact hp.1 r hrt (h1 ▸ hxy)
        · exact ih hp.2 r hr x h1 hxy
      · rw [if_neg h] at hr
        rcases List.mem_cons.mp hr with h2 | h2
        · rcases List.mem_cons.mp hx with h1 | h1
          · rw [h1, h2]
          · exfalso
            apply h
            refine List.any_eq_true.mpr ⟨x, h1, ?_⟩
            rw [decide_eq_true_eq, hxy, h2]
        · rcases List.mem_cons.mp hx with h1 | h1
          · exfalso
            apply h
            refine List.any_eq_true.mpr ⟨r, tailOne_subset key t r h2, ?_⟩
            rw [decide_eq_true_eq, ← hxy, h1]
          · exact ih hp.2 r h2 x h1 hxy

/-- `tailOne` keeps exactly one row per key present in the list. -/
theorem tailOne_count {ρ κ : Type} [DecidableEq κ] (key : ρ → κ) :
    ∀ (l : List ρ) (k : κ),
      ((tailOne key l).filter (fun r => decide (key r = k))).length =
        if l.any (fun x => decide (key x = k)) = true then 1 else 0 := by
  intro l
  induction l with
  | nil => intro k; simp [tailOne]
  | cons a t ih =>
      intro k
      rw [tailOne]
      by_cases h : t.any (fun x => decide (key x = key a)) = true
      · rw [if_pos h, ih k, List.any_cons]
        by_cases hk : key a = k
        · obtain ⟨y, hy, hky⟩ := List.any_eq_true.mp h
          have hty : t.any (fun x => decide (key x = k)) = true := by
            refine List.any_eq_true.mpr ⟨y, hy, ?_⟩
            rw [decide_eq_true_eq] at hky ⊢
            rw [hky, hk]
          simp [hty]
        · simp [hk]
      · rw [if_neg h, List.filter_cons, List.any_cons]
        by_cases hk : key a = k
        · have htf : t.any (fun x => decide (key x = k)) = false := by
            rw [List.any_eq_false]
            intro x hx hxk
            apply h
            refine List.any_eq_true.mpr ⟨x, hx, ?_⟩
            rw [decide_eq_true_eq] at hxk ⊢
            rw [hxk, hk]
          simp [hk, ih k, htf]
        · simp [hk, ih k]

/-- Team rows as flattened by `enrich_dataset` (src/data_generator.py lines
90-103): the grouping key `teamid`, the sort keys and the identifying
columns. -/
structure TeamRow where
  teamid : String
  teamname : String
  league : String
  date : Nat
deriving DecidableEq

/-- Player rows as flattened by `enrich_dataset` (src/data_generator.py lines
105-123): the grouping keys `playerid` and `teamid`, the sort keys and the
identifying columns. -/
structure PlayerRow where
  playerid : String
  teamid : String
  playername : String
  league : String
  date : Nat
deriving DecidableEq

/-- Sort order of `team_data.sort_values(['teamid', 'date'])`. -/
def teamSortLe (a b : TeamRow) : Prop :=
  a.teamid < b.teamid ∨ (a.teamid = b.teamid ∧ a.date ≤ b.date)

instance : DecidableRel teamSortLe := fun a b => by
  unfold teamSortLe; infer_instance

instance : IsTotal TeamRow teamSortLe := ⟨by
  intro a b
  rcases lt_trichotomy a.teamid b.teamid with h | h | h
  · exact Or.inl (Or.inl h)
  · rcases le_total a.date b.date with hd | hd
    · exact Or.inl (Or.inr ⟨h, hd⟩)
    · exact Or.inr (Or.inr ⟨h.symm, hd⟩)
  · exact Or.inr (Or.inl h)⟩

instance : IsTrans TeamRow teamSortLe := ⟨by
  intro a b c hab hbc
  rcases hab with h1 | ⟨e1, d1⟩ <;> rcases hbc with h2 | ⟨e2, d2⟩
  · exact Or.inl (lt_trans h1 h2)
  · exact Or.inl (lt_of_lt_of_eq h1 e2)
  · exact Or.inl (lt_of_eq_of_lt e1 h2)
  · exact Or.inr ⟨e1.trans e2, le_trans d1 d2⟩⟩

/-- Sort order of `player_data.sort_values(['playerid', 'date'])`. -/
def playerSortLe (a b : PlayerRow) : Prop :=
  a.playerid < b.playerid ∨ (a.playerid = b.playerid ∧ a.date ≤ b.date)

instance : DecidableRel playerSortLe := fun a b => by
  unfold playerSortLe; infer_instance

instance : IsTotal PlayerRow playerSortLe := ⟨by
  intro a b
  rcases lt_trichotomy a.playerid b.playerid with h | h | h
  · exact Or.inl (Or.inl h)
  · rcases le_total a.date b.date with hd | hd
    · exact Or.inl (Or.inr ⟨h, hd⟩)
    · exact Or.inr (Or.inr ⟨h.symm, hd⟩)
  · exact Or.inr (Or.inl h)⟩

instance : IsTrans PlayerRow playerSortLe := ⟨by
  intro a b c hab hbc
  rcases hab with h1 | ⟨e1, d1⟩ <;> rcases hbc with h2 | ⟨e2, d2⟩
  · exact Or.inl (lt_trans h1 h2)
  · exact Or.inl (lt_of_lt_of_eq h1 e2)
  · exact Or.inl (lt_of_eq_of_lt e1 h2)
  · exact Or.inr ⟨e1.trans e2, le_trans d1 d2⟩⟩

/-- The team flattening of `enrich_dataset` (src/data_generator.py line 90):
`team_data.sort_values(['teamid', 'date']).groupby('teamid').tail(1)`; the
later column selection and renaming keeps these rows one-for-one. -/
def flattened_teams (t : List TeamRow) : List TeamRow :=
  tailOne (fun r => r.teamid) (List.insertionSort teamSortLe t)

/-- The player flattening of `enrich_dataset` (src/data_generator.py lines
105-106): `player_data.sort_values(['playerid', 'date'])
.groupby(['playerid', 'teamid']).tail(1)`. -/
def flattened_players (t : List PlayerRow) : List PlayerRow :=
  tailOne (fun r => (r.playerid, r.teamid)) (List.insertionSort playerSortLe t)

/-- C9: flattening keeps the most recent row per entity: for every team
present in the team table, the flattened snapshot holds exactly one row of
that team, and its date is the maximum date over the team's rows; likewise
for every `(playerid, teamid)` pair of the player table. -/
theorem flattening_latest_per_entity :
    (∀ (t : List TeamRow) (k : String),
        (∃ x ∈ t, x.teamid = k) →
        ∃ r, (flattened_teams t).filter (fun x => decide (x.teamid = k)) = [r] ∧
          r ∈ t ∧ r.teamid = k ∧ ∀ x ∈ t, x.teamid = k → x.date ≤ r.date) ∧
    (∀ (t : List PlayerRow) (k : String × String),
        (∃ x ∈ t, (x.playerid, x.teamid) = k) →
        ∃ r, (flattened_players t).filter
            (fun x => decide ((x.playerid, x.teamid) = k)) = [r] ∧
          r ∈ t ∧ (r.playerid, r.teamid) = k ∧
          ∀ x ∈ t, (x.playerid, x.teamid) = k → x.date ≤ r.date) := by
  constructor
  · intro t k hex
    have hperm := List.perm_insertionSort teamSortLe t
    have hsorted : (List.insertionSort teamSortLe t).Pairwise
        (fun a b => a.teamid = b.teamid → a.date ≤ b.date) := by
      refine (List.sorted_insertionSort teamSortLe t).imp ?_
      intro a b hab heq
      rcases hab with h | ⟨_, hd⟩
      · rw [heq] at h; exact absurd h (lt_irrefl _)
      · exact hd
    have hany : (List.insertionSort teamSortLe t).any
        (fun x => decide (x.teamid = k)) = true := by
      obtain ⟨x, hx, hxk⟩ := hex
      refine List.any_eq_true.mpr ⟨x, hperm.mem_iff.mpr hx, ?_⟩
      rw [decide_eq_true_eq]; exact hxk
    have hcount := tailOne_count (fun r : TeamRow => r.teamid)
      (List.insertionSort teamSortLe t) k
    rw [hany, if_pos rfl] at hcount
    obtain ⟨r, hr⟩ := List.length_eq_one.mp hcount
    have hrmem : r ∈ (tailOne (fun r : TeamRow => r.teamid)
        (List.insertionSort teamSortLe t)).filter (fun x => decide (x.teamid = k)) := by
      rw [hr]; exact List.mem_cons_self r []
    have hrt := List.mem_of_mem_filter hrmem
    have hrk : r.teamid = k := by
      have h := List.of_mem_filter hrmem
      rwa [decide_eq_true_eq] at h
    refine ⟨r, hr, hperm.mem_iff.mp (tailOne_subset _ _ r hrt), hrk, ?_⟩
    intro x hx hxk
    exact tailOne_max (fun r : TeamRow => r.teamid) (fun r => r.date) _ hsorted r hrt x
      (hperm.mem_iff.mpr hx) (by show x.teamid = r.teamid; rw [hxk, hrk])
  · intro t k hex
    have hperm := List.perm_insertionSort playerSortLe t
    have hsorted : (List.insertionSort playerSortLe t).Pairwise
        (fun a b => (a.playerid, a.teamid) = (b.playerid, b.teamid) →
          a.date ≤ b.date) := by
      refine (List.sorted_insertionSort playerSortLe t).imp ?_
      intro a b hab heq
      have hpid : a.playerid = b.playerid := congrArg Prod.fst heq
      rcases hab with h | ⟨_, hd⟩
      · rw [hpid] at h; exact absurd h (lt_irrefl _)
      · exact hd
    have hany : (List.insertionSort playerSortLe t).any
        (fun x => decide ((x.playerid, x.teamid) = k)) = true := by
      obtain ⟨x, hx, hxk⟩ := hex
      refine List.any_eq_true.mpr ⟨x, hperm.mem_iff.mpr hx, ?_⟩
      rw [decide_eq_true_eq]; exact hxk
    have hcount := tailOne_count (fun r : PlayerRow => (r.playerid, r.teamid))
      (List.insertionSort playerSortLe t) k
    rw [hany, if_pos rfl] at hcount
    obtain ⟨r, hr⟩ := List.length_eq_one.mp hcount
    have hrmem : r ∈ (tailOne (fun r : PlayerRow => (r.playerid, r.teamid))
        (List.insertionSort playerSortLe t)).filter
          (fun x => decide ((x.playerid, x.teamid) = k)) := by
      rw [hr]; exact List.mem_cons_self r []
    have hrt := List.mem_of_mem_filter hrmem
    have hrk : (r.playerid, r.teamid) = k := by
      have h := List.of_mem_filter hrmem
      rwa [decide_eq_true_eq] at h
    refine ⟨r, hr, hperm.mem_iff.mp (tailOne_subset _ _ r hrt), hrk, ?_⟩
    intro x hx hxk
    exact tailOne_max (fun r : PlayerRow => (r.playerid, r.teamid)) (fun r => r.date) _
      hsorted r hrt x (hperm.mem_iff.mpr hx)
      (by show (x.playerid, x.teamid) = (r.playerid, r.teamid); rw [hxk, hrk])

theorem flattening_latest_per_entity_witness :
    (∃ r, (flattened_teams [⟨"T1", "N", "L", 1⟩, ⟨"T1", "N", "L", 5⟩]).filter
        (fun x => decide (x.teamid = "T1")) = [r] ∧
      r ∈ [(⟨"T1", "N", "L", 1⟩ : TeamRow), ⟨"T1", "N", "L", 5⟩] ∧ r.teamid = "T1" ∧
      ∀ x ∈ [(⟨"T1", "N", "L", 1⟩ : TeamRow), ⟨"T1", "N", "L", 5⟩],
        x.teamid = "T1" → x.date ≤ r.date) ∧
    (∃ r, (flattened_players [⟨"P1", "T1", "N", "L", 3⟩]).filter
        (fun x => decide ((x.playerid, x.teamid) = ("P1", "T1"))) = [r] ∧
      r ∈ [(⟨"P1", "T1", "N", "L", 3⟩ : PlayerRow)] ∧
      (r.playerid, r.teamid) = ("P1", "T1") ∧
      ∀ x ∈ [(⟨"P1", "T1", "N", "L", 3⟩ : PlayerRow)],
        (x.playerid, x.teamid) = ("P1", "T1") → x.date ≤ r.date) :=
  ⟨flattening_latest_per_entity.1 [⟨"T1", "N", "L", 1⟩, ⟨"T1", "N", "L", 5⟩] "T1"
      (by decide),
   flattening_latest_per_entity.2 [⟨"P1", "T1", "N", "L", 3⟩] ("P1", "T1") (by decide)⟩
